import Mathlib

/-! Verification of the pose-graph calibration and grouped hyperparameter
search engine of the odometry repository.

Shallow embedding of:
* `slam/aggregation/g2o_estimator.py` — `G2OEstimator._apply_g2o_coef`
  and `G2OEstimator.predict`;
* `scripts/aggregation/random_search.py` — `get_epoch_from_dirname`,
  `get_path`, `get_predicted_df`, `get_coefs`.

Float fields of rows and coefficient values are modelled as rationals
(`ℚ`, exact arithmetic, decidable equality); Python `int` becomes `Int`
or `Nat` as the call sites require.  Fallible operations (Python code
that can raise) return `Except String _`.  External collaborators
(the g2o solver, `calculate_metrics`, `average_metrics`, `read_csv`)
are parameters of the embedded functions, matching the treatment in the spec
of them as external interfaces.
-/

namespace Odometry

/-- One row of an edge table (`RelativePoseEdge` in the data model):
two frame indices, the six mean-estimate fields, the six confidence
fields and the stride distance `diff`. -/
structure Row where
  from_index : Int
  to_index : Int
  euler_x : ℚ
  euler_y : ℚ
  euler_z : ℚ
  t_x : ℚ
  t_y : ℚ
  t_z : ℚ
  euler_x_confidence : ℚ
  euler_y_confidence : ℚ
  euler_z_confidence : ℚ
  t_x_confidence : ℚ
  t_y_confidence : ℚ
  t_z_confidence : ℚ
  diff : Int
  deriving DecidableEq, Repr, Inhabited

/-- The hyperparameters of `G2OEstimator.__init__` that the weighting
policy reads.  `coef` is the Python dict `{stride: multiplier}`,
modelled as an association list; `coef_loop`, `loop_threshold` and
`rotation_scale` are the scalar fields of the estimator. -/
structure G2OConfig where
  coef : List (Int × ℚ)
  coef_loop : ℚ
  loop_threshold : Int
  rotation_scale : ℚ
  deriving DecidableEq, Repr

/-- The scale factor `std_coef` computed at the top of
`G2OEstimator._apply_g2o_coef`:

    std_coef = 1
    if diff in self.coef:
        std_coef = self.coef[diff]
    else:
        is_loop = diff > self.loop_threshold
        std_coef = self.coef_loop if is_loop else 1e7

(the initial value `1` is dead: both branches overwrite it). -/
def std_coef (cfg : G2OConfig) (diff : Int) : ℚ :=
  match cfg.coef.lookup diff with
  | some c => c
  | none => if diff > cfg.loop_threshold then cfg.coef_loop else 10000000

/-- Embedding of `G2OEstimator._apply_g2o_coef`: a value-level transform on one
row: the six `*_confidence` columns are multiplied by `std_coef`, then
the three rotation-confidence columns are additionally multiplied by
`rotation_scale`; every other field is carried over. -/
def apply_g2o_coef (cfg : G2OConfig) (row : Row) : Row :=
  let c := std_coef cfg row.diff
  { row with
    euler_x_confidence := row.euler_x_confidence * c * cfg.rotation_scale
    euler_y_confidence := row.euler_y_confidence * c * cfg.rotation_scale
    euler_z_confidence := row.euler_z_confidence * c * cfg.rotation_scale
    t_x_confidence := row.t_x_confidence * c
    t_y_confidence := row.t_y_confidence * c
    t_z_confidence := row.t_z_confidence * c }

/-- C1: the `coef` lookup takes precedence over the loop-threshold
classification.  The scale factor used by `_apply_g2o_coef` is
`coef[diff]` whenever `diff` is a key of `coef`, for every value of
`loop_threshold` — in particular also when `diff > loop_threshold`. -/
theorem std_coef_of_mem_coef
    (coef : List (Int × ℚ)) (cl : ℚ) (lt : Int) (rs : ℚ)
    (d : Int) (c : ℚ) (h : coef.lookup d = some c) :
    std_coef ⟨coef, cl, lt, rs⟩ d = c := by
  simp [std_coef, h]

/-- Witness for C1: a concrete edge with `diff = 60`, present in `coef`,
with `loop_threshold = 50 < 60`; the scale factor is `coef[60] = 3`,
not `coef_loop`. -/
theorem std_coef_of_mem_coef_witness :
    ([((1 : Int), (5 : ℚ)), (60, 3)].lookup (60 : Int) = some 3) ∧
      std_coef ⟨[(1, 5), (60, 3)], 7, 50, 2⟩ 60 = 3 :=
  ⟨by decide, std_coef_of_mem_coef [(1, 5), (60, 3)] 7 50 2 60 3 (by decide)⟩

/-- C2: when `diff` is not a key of `coef`, the scale factor is
`coef_loop` if `diff > loop_threshold`, and the fixed fallback `1e7`
otherwise. -/
theorem std_coef_of_not_mem_coef
    (cfg : G2OConfig) (d : Int) (h : cfg.coef.lookup d = none) :
    (cfg.loop_threshold < d → std_coef cfg d = cfg.coef_loop) ∧
      (d ≤ cfg.loop_threshold → std_coef cfg d = 10000000) := by
  constructor
  · intro hl
    simp [std_coef, h, hl]
  · intro hl
    simp [std_coef, h, not_lt.mpr hl]

/-- Witness for C2: with `coef = {1: 5}` and `loop_threshold = 50`, an
edge with `diff = 60` gets `coef_loop`, and one with `diff = 10` gets
`1e7`. -/
theorem std_coef_of_not_mem_coef_witness :
    std_coef ⟨[(1, 5)], 7, 50, 2⟩ 60 = 7 ∧
      std_coef ⟨[(1, 5)], 7, 50, 2⟩ 10 = 10000000 :=
  ⟨(std_coef_of_not_mem_coef ⟨[(1, 5)], 7, 50, 2⟩ 60 (by decide)).1 (by decide),
   (std_coef_of_not_mem_coef ⟨[(1, 5)], 7, 50, 2⟩ 10 (by decide)).2 (by decide)⟩

/-- C3: `_apply_g2o_coef` multiplies each of the six confidence fields
by the chosen scale factor, additionally multiplies the three rotation
confidence fields by `rotation_scale`, and leaves the six mean-estimate
fields, the two index fields and `diff` exactly as in the input. -/
theorem apply_g2o_coef_fields (cfg : G2OConfig) (row : Row) :
    (apply_g2o_coef cfg row).euler_x_confidence
        = row.euler_x_confidence * std_coef cfg row.diff * cfg.rotation_scale ∧
    (apply_g2o_coef cfg row).euler_y_confidence
        = row.euler_y_confidence * std_coef cfg row.diff * cfg.rotation_scale ∧
    (apply_g2o_coef cfg row).euler_z_confidence
        = row.euler_z_confidence * std_coef cfg row.diff * cfg.rotation_scale ∧
    (apply_g2o_coef cfg row).t_x_confidence
        = row.t_x_confidence * std_coef cfg row.diff ∧
    (apply_g2o_coef cfg row).t_y_confidence
        = row.t_y_confidence * std_coef cfg row.diff ∧
    (apply_g2o_coef cfg row).t_z_confidence
        = row.t_z_confidence * std_coef cfg row.diff ∧
    (apply_g2o_coef cfg row).euler_x = row.euler_x ∧
    (apply_g2o_coef cfg row).euler_y = row.euler_y ∧
    (apply_g2o_coef cfg row).euler_z = row.euler_z ∧
    (apply_g2o_coef cfg row).t_x = row.t_x ∧
    (apply_g2o_coef cfg row).t_y = row.t_y ∧
    (apply_g2o_coef cfg row).t_z = row.t_z ∧
    (apply_g2o_coef cfg row).from_index = row.from_index ∧
    (apply_g2o_coef cfg row).to_index = row.to_index ∧
    (apply_g2o_coef cfg row).diff = row.diff := by
  refine ⟨rfl, rfl, rfl, rfl, rfl, rfl, rfl, rfl, rfl, rfl, rfl, rfl, rfl, rfl, rfl⟩

/-! The coefficient-space generator `get_coefs` of scripts/aggregation/random_search.py.

    def get_coefs(vals, current_level, max_depth):
        if current_level == max_depth:
            return [[v] for v in vals]
        else:
            coefs = get_coefs(vals, current_level + 1, max_depth)
            return [[v] + c for v in vals for c in coefs]

The Python recursion is on `current_level + 1` towards an *equality*
test against `max_depth`, so it does not terminate when
`max_depth < current_level`.  It is embedded with explicit fuel:
`none` means the recursion was still running when the fuel ran out. -/

/-- The `get_coefs` recursion with fuel.  One unit of fuel is one Python call frame. -/
def get_coefs (fuel : Nat) (vals : List ℚ) (current_level max_depth : Nat) :
    Option (List (List ℚ)) :=
  match fuel with
  | 0 => none
  | fuel + 1 =>
    if current_level = max_depth then
      some (vals.map (fun v => [v]))
    else
      match get_coefs fuel vals (current_level + 1) max_depth with
      | none => none
      | some coefs => some (vals.flatMap (fun v => coefs.map (fun c => v :: c)))

/-- The pure value produced by a terminating run of `get_coefs` with
`max_depth - current_level = n`: `gen_coefs vals n` is the list of
tuples of length `n + 1`, outer loop over `vals`, inner loop over the
previous level. -/
def gen_coefs (vals : List ℚ) : Nat → List (List ℚ)
  | 0 => vals.map (fun v => [v])
  | n + 1 => vals.flatMap (fun v => (gen_coefs vals n).map (fun c => v :: c))

/-- With enough fuel, `get_coefs` at levels `cur ≤ cur + n` terminates
and returns `gen_coefs vals n`. -/
theorem get_coefs_eq_gen (vals : List ℚ) :
    ∀ (n cur fuel : Nat), n < fuel →
      get_coefs fuel vals cur (cur + n) = some (gen_coefs vals n) := by
  intro n
  induction n with
  | zero =>
    intro cur fuel hf
    match fuel, hf with
    | fuel + 1, _ => simp [get_coefs, gen_coefs]
  | succ n ih =>
    intro cur fuel hf
    match fuel, hf with
    | fuel + 1, hf =>
      have hne : cur ≠ cur + (n + 1) := by omega
      have hrec : get_coefs fuel vals (cur + 1) (cur + (n + 1))
          = some (gen_coefs vals n) := by
        have := ih (cur + 1) fuel (by omega)
        simpa [Nat.add_comm, Nat.add_assoc, Nat.add_left_comm] using this
      simp [get_coefs, hne, hrec, gen_coefs]

/-- Length of one level of the `[v] + c` double loop. -/
theorem length_flatMap_cons (l : List ℚ) (M : List (List ℚ)) :
    (l.flatMap (fun v => M.map (fun c => v :: c))).length = l.length * M.length := by
  induction l with
  | nil => simp
  | cons a l ih => simp [ih]; ring

/-- Cardinality of each level: `len(vals) ^ (n + 1)` tuples. -/
theorem gen_coefs_length (vals : List ℚ) :
    ∀ n, (gen_coefs vals n).length = vals.length ^ (n + 1) := by
  intro n
  induction n with
  | zero => simp [gen_coefs]
  | succ n ih =>
    show (vals.flatMap (fun v => (gen_coefs vals n).map (fun c => v :: c))).length
        = vals.length ^ (n + 1 + 1)
    rw [length_flatMap_cons, ih]
    ring

/-- Membership at each level: exactly the tuples of length `n + 1` all
of whose entries come from `vals` — the full Cartesian power. -/
theorem gen_coefs_mem (vals : List ℚ) :
    ∀ n (t : List ℚ),
      t ∈ gen_coefs vals n ↔ t.length = n + 1 ∧ ∀ x ∈ t, x ∈ vals := by
  intro n
  induction n with
  | zero =>
    intro t
    constructor
    · intro ht
      obtain ⟨v, hv, rfl⟩ := List.mem_map.mp ht
      simp [hv]
    · intro ⟨hlen, hall⟩
      match t, hlen with
      | [x], _ =>
        exact List.mem_map.mpr ⟨x, hall x (by simp), rfl⟩
  | succ n ih =>
    intro t
    constructor
    · intro ht
      obtain ⟨v, hv, hmem⟩ := List.mem_flatMap.mp ht
      obtain ⟨c, hc, rfl⟩ := List.mem_map.mp hmem
      obtain ⟨hlen, hall⟩ := (ih c).mp hc
      refine ⟨by simp [hlen], ?_⟩
      intro x hx
      rcases List.mem_cons.mp hx with h | h
      · exact h ▸ hv
      · exact hall x h
    · intro ⟨hlen, hall⟩
      match t, hlen with
      | x :: rest, hlen =>
        refine List.mem_flatMap.mpr ⟨x, hall x (by simp), ?_⟩
        refine List.mem_map.mpr ⟨rest, ?_, rfl⟩
        exact (ih rest).mpr ⟨by simpa using hlen, fun y hy => hall y (by simp [hy])⟩

/-- C4: called as in `main` — `get_coefs(vals, 1, d)` with depth
`d ≥ 1` and enough fuel — the generator terminates and returns exactly
`len(vals) ^ d` tuples, the full Cartesian power `vals ^ d` (every
returned tuple has length `d` with entries from `vals`, and every such
tuple is returned); for `vals = [1, 2]` and `d = 2` the returned list
is exactly `[[1,1], [1,2], [2,1], [2,2]]` in that order. -/
theorem get_coefs_cartesian_power
    (vals : List ℚ) (d fuel : Nat) (hd : 1 ≤ d) (hf : d ≤ fuel) :
    (∃ L, get_coefs fuel vals 1 d = some L ∧
       L.length = vals.length ^ d ∧
       ∀ t, t ∈ L ↔ t.length = d ∧ ∀ x ∈ t, x ∈ vals) ∧
      get_coefs 2 [(1 : ℚ), 2] 1 2 = some [[1, 1], [1, 2], [2, 1], [2, 2]] := by
  constructor
  · refine ⟨gen_coefs vals (d - 1), ?_, ?_, ?_⟩
    · have h1 : 1 + (d - 1) = d := by omega
      have := get_coefs_eq_gen vals (d - 1) 1 fuel (by omega)
      rwa [h1] at this
    · rw [gen_coefs_length]
      congr 1
      omega
    · intro t
      rw [gen_coefs_mem]
      constructor
      · intro ⟨h, h2⟩
        exact ⟨by omega, h2⟩
      · intro ⟨h, h2⟩
        exact ⟨by omega, h2⟩
  · decide

/-- Witness for C4: the theorem applied at `vals = [1, 2]`, `d = 2`,
`fuel = 2`. -/
theorem get_coefs_cartesian_power_witness :
    (∃ L, get_coefs 2 [(1 : ℚ), 2] 1 2 = some L ∧
       L.length = 2 ^ 2 ∧
       ∀ t, t ∈ L ↔ t.length = 2 ∧ ∀ x ∈ t, x ∈ [(1 : ℚ), 2]) ∧
      get_coefs 2 [(1 : ℚ), 2] 1 2 = some [[1, 1], [1, 2], [2, 1], [2, 2]] :=
  get_coefs_cartesian_power [(1 : ℚ), 2] 2 2 (by decide) (by decide)

/-- C10: the recursion terminates exactly when the starting level is at
most the maximum depth.  For a non-empty value list and
`cur ≤ max_depth`, any fuel above `max_depth - cur` yields a non-empty
finite list whose tuples all have length `max_depth - cur + 1`; for
`max_depth < cur` (as `main` produces when the configuration has a
single stride key, giving `get_coefs(vals, 1, 0)`), the base case is
never reached: every finite fuel is exhausted. -/
theorem get_coefs_termination (vals : List ℚ) (cur maxd : Nat) :
    (vals ≠ [] → cur ≤ maxd → ∀ fuel, maxd - cur < fuel →
       ∃ L, get_coefs fuel vals cur maxd = some L ∧ L ≠ [] ∧
         ∀ t ∈ L, t.length = maxd - cur + 1) ∧
      (maxd < cur → ∀ fuel, get_coefs fuel vals cur maxd = none) := by
  constructor
  · intro hne hle fuel hf
    refine ⟨gen_coefs vals (maxd - cur), ?_, ?_, ?_⟩
    · have h1 : cur + (maxd - cur) = maxd := by omega
      have := get_coefs_eq_gen vals (maxd - cur) cur fuel (by omega)
      rwa [h1] at this
    · intro hempty
      have := gen_coefs_length vals (maxd - cur)
      rw [hempty] at this
      simp at this
      exact hne (List.eq_nil_of_length_eq_zero (by
        have hp := pow_eq_zero_iff (n := maxd - cur + 1) (by omega) |>.mp this.symm
        exact hp))
    · intro t ht
      exact ((gen_coefs_mem vals (maxd - cur) t).mp ht).1
  · intro hlt
    intro fuel
    induction fuel generalizing cur with
    | zero => rfl
    | succ fuel ih =>
      have hne : cur ≠ maxd := by omega
      have hrec := ih (cur + 1) (by omega)
      simp [get_coefs, hne, hrec]

/-- Witness for C10: both halves at concrete inputs — depth 2 from
level 1 with fuel 3 terminates with pairs, and `get_coefs(vals, 1, 0)`
(the single-stride-key configuration) returns no result even with fuel
100. -/
theorem get_coefs_termination_witness :
    (∃ L, get_coefs 3 [(1 : ℚ)] 1 2 = some L ∧ L ≠ [] ∧
       ∀ t ∈ L, t.length = 2 - 1 + 1) ∧
      get_coefs 100 [(1 : ℚ)] 1 0 = none :=
  ⟨(get_coefs_termination [(1 : ℚ)] 1 2).1 (by decide) (by decide) 3 (by decide),
   (get_coefs_termination [(1 : ℚ)] 1 0).2 (by decide) 100⟩

/-! The estimator operation `G2OEstimator.predict`.

`predict(X, y)` weights every edge table, sends each to the external
solver, zips the ground-truth list `y` with the predicted trajectories,
computes one metric record per pair and averages the records.  The
external collaborators (`GraphOptimizer` + `get_trajectory`, i.e. the
solver, `calculate_metrics` and `average_metrics`) are parameters;
each may fail, and a failure propagates like a Python exception.
Progress printing is omitted (output only).  Note the source has no
length check on `X` versus `y`: `zip(y, preds)` silently truncates. -/

/-- Sequential effectful map: the embedding of a Python `for` loop that
builds a list and lets an exception escape at the first failing item. -/
def mapExcept {α β ε : Type} (f : α → Except ε β) : List α → Except ε (List β)
  | [] => .ok []
  | a :: as =>
    match f a with
    | .error e => .error e
    | .ok b =>
      match mapExcept f as with
      | .error e => .error e
      | .ok bs => .ok (b :: bs)

/-- Embedding of `G2OEstimator.predict` over abstract trajectory and record types. -/
def predict {T R : Type}
    (solve : G2OConfig → List Row → Except String T)
    (calculate_metrics : T → T → Except String R)
    (average_metrics : List R → Except String R)
    (cfg : G2OConfig) (X : List (List Row)) (y : List T) :
    Except String R :=
  match mapExcept (fun df => solve cfg (df.map (apply_g2o_coef cfg))) X with
  | .error e => .error e
  | .ok preds =>
    match mapExcept (fun gp => calculate_metrics gp.1 gp.2) (y.zip preds) with
    | .error e => .error e
    | .ok records => average_metrics records

/-- A loop whose body always succeeds collapses to a plain map. -/
theorem mapExcept_ok {α β ε : Type} (f : α → β) (l : List α) :
    mapExcept (fun a => (Except.ok (f a) : Except ε β)) l = .ok (l.map f) := by
  induction l with
  | nil => rfl
  | cons a as ih => simp [mapExcept, ih]

/-- Counterexample to C5: `predict` performs no shape check.  With two
edge tables and a single ground-truth trajectory (lengths 2 ≠ 1) and
external collaborators that succeed, it returns an aggregated record
(`Except.ok`) instead of failing. -/
theorem predict_length_mismatch_no_error :
    ([([] : List Row), []].length ≠ [(0 : Nat)].length) ∧
      predict (fun _ _ => Except.ok (0 : Nat)) (fun _ _ => Except.ok (1 : Nat))
          (fun rs => Except.ok rs.length) ⟨[], 0, 0, 1⟩ [[], []] [0]
        = Except.ok 1 :=
  ⟨by decide, rfl⟩

/-- C5 as amended: `predict` has no length check.  Whenever the
external solver and metric calls succeed, it returns the average over
the records of `zip(y, preds)`, whose length is
`min(len(y), len(X))` — a length mismatch is silently truncated, never
an error. -/
theorem predict_truncates_to_min {T R : Type}
    (solveF : G2OConfig → List Row → T) (calcF : T → T → R)
    (average_metrics : List R → Except String R)
    (cfg : G2OConfig) (X : List (List Row)) (y : List T) :
    predict (fun c df => .ok (solveF c df)) (fun g p => .ok (calcF g p))
        average_metrics cfg X y
      = average_metrics
          ((y.zip (X.map (fun df => solveF cfg (df.map (apply_g2o_coef cfg))))).map
            (fun gp => calcF gp.1 gp.2)) ∧
      (y.zip (X.map (fun df => solveF cfg (df.map (apply_g2o_coef cfg))))).length
        = min y.length X.length := by
  constructor
  · simp [predict, mapExcept_ok]
  · simp

/-! In-place row mutation: the statement `row[self.std_cols] *= std_coef`.

`_apply_g2o_coef` mutates the pandas Series it receives (`*=` writes
back into the object) and returns that same object; `df.apply(...,
axis=1)` hands the function a freshly materialized copy of each row,
which is why the `df` of the caller survives unchanged.  To make object
identity expressible, rows live in an explicit heap (a list of rows
addressed by index); mutation is `List.set` at an address, and the
copy made by `df.apply` is an allocation at a fresh address. -/

/-- A heap of row objects; an address is an index into the list. -/
abbrev Heap := List Row

/-- Embedding of `_apply_g2o_coef` at the object level: read the row object at
address `a`, write the reweighted fields back into the same object
(the `*=` statements), and return the same address (`return row`). -/
def apply_g2o_coef_mut (cfg : G2OConfig) (h : Heap) (a : Nat) : Heap × Nat :=
  (h.set a (apply_g2o_coef cfg (h.getD a default)), a)

/-- Embedding of `df.apply(self._apply_g2o_coef, axis=1)` at the object level: for
each row address of the frame, allocate a fresh copy of the row at the
end of the heap (pandas materializes a new Series per row), run the
mutating function on the copy, and collect the returned addresses into
the result frame. -/
def df_apply_coef (cfg : G2OConfig) : Heap → List Nat → Heap × List Nat
  | h, [] => (h, [])
  | h, a :: as =>
    let copy := h ++ [h.getD a default]
    let applied := apply_g2o_coef_mut cfg copy h.length
    let rest := df_apply_coef cfg applied.1 as
    (rest.1, applied.2 :: rest.2)

/-- Writing one heap cell leaves every other address unchanged. -/
theorem heap_getD_set_ne (l : Heap) (m a : Nat) (x : Row) (hne : a ≠ m) :
    (l.set m x).getD a default = l.getD a default := by
  simp [List.getD_eq_getElem?_getD, List.getElem?_set_ne (Ne.symm hne)]

/-- Counterexample to C6: `_apply_g2o_coef` is not mutation-free.  On a
concrete heap holding one row object, it returns the *same* address it
was given, and the row object at that address has been changed in
place (here `coef = {1: 2}`, so the confidence fields double). -/
theorem apply_g2o_coef_mut_counterexample :
    (apply_g2o_coef_mut ⟨[(1, 2)], 0, 0, 1⟩
        [⟨0, 1, 0, 0, 0, 0, 0, 0, 1, 1, 1, 1, 1, 1, 1⟩] 0).2 = 0 ∧
      (apply_g2o_coef_mut ⟨[(1, 2)], 0, 0, 1⟩
          [⟨0, 1, 0, 0, 0, 0, 0, 0, 1, 1, 1, 1, 1, 1, 1⟩] 0).1.getD 0 default
        ≠ [(⟨0, 1, 0, 0, 0, 0, 0, 0, 1, 1, 1, 1, 1, 1, 1⟩ : Row)].getD 0 default := by
  refine ⟨rfl, fun hEq => ?_⟩
  have hfield := congrArg (fun r : Row => r.t_x_confidence) hEq
  norm_num [apply_g2o_coef_mut, apply_g2o_coef, std_coef, List.getD,
    List.lookup] at hfield

/-- C6 as amended: although `_apply_g2o_coef` mutates the row object it
is handed, `df.apply` hands it a fresh copy of each row, so running the
weighting pass over a frame leaves every pre-existing row object — in
particular the original edge table of the caller — unchanged. -/
theorem df_apply_coef_preserves_heap (cfg : G2OConfig) :
    ∀ (df : List Nat) (h : Heap) (a : Nat), a < h.length →
      (df_apply_coef cfg h df).1.getD a default = h.getD a default := by
  intro df
  induction df with
  | nil =>
    intro h a _
    rfl
  | cons a0 as ih =>
    intro h a ha
    have unfold1 : (df_apply_coef cfg h (a0 :: as)).1
        = (df_apply_coef cfg
            (apply_g2o_coef_mut cfg (h ++ [h.getD a0 default]) h.length).1 as).1 := rfl
    have hlen : a < ((apply_g2o_coef_mut cfg (h ++ [h.getD a0 default]) h.length).1).length := by
      simp [apply_g2o_coef_mut]
      omega
    rw [unfold1, ih _ a hlen]
    show ((h ++ [h.getD a0 default]).set h.length _).getD a default = h.getD a default
    rw [heap_getD_set_ne _ _ _ _ (by omega)]
    exact List.getD_append _ _ _ _ ha

/-- Witness for the amended C6: a one-row frame is reweighted and the
original row object at address 0 still holds its old value. -/
theorem df_apply_coef_preserves_heap_witness :
    (0 < ([⟨0, 1, 0, 0, 0, 0, 0, 0, 1, 1, 1, 1, 1, 1, 1⟩] : Heap).length) ∧
      (df_apply_coef ⟨[(1, 2)], 0, 0, 1⟩
          [⟨0, 1, 0, 0, 0, 0, 0, 0, 1, 1, 1, 1, 1, 1, 1⟩] [0]).1.getD 0 default
        = ([⟨0, 1, 0, 0, 0, 0, 0, 0, 1, 1, 1, 1, 1, 1, 1⟩] : Heap).getD 0 default :=
  ⟨by decide,
   df_apply_coef_preserves_heap ⟨[(1, 2)], 0, 0, 1⟩ [0]
     [⟨0, 1, 0, 0, 0, 0, 0, 0, 1, 1, 1, 1, 1, 1, 1⟩] 0 (by decide)⟩

/-! Trajectory locator: `get_epoch_from_dirname` and `get_path`.

Filesystem paths are modelled as lists of components, so
`p.parent.parent.name` is the third-from-last component and
`as_posix` joins the components with `/`.  The result of
`Path.rglob` for the trajectory name — the list of matching
prediction files — is the input of the locator, since the filesystem itself lives
outside the program. -/

/-- A path as its list of components. -/
abbrev PyPath := List String

/-- Python `PurePath.as_posix()` on the component list. -/
def as_posix (p : PyPath) : String := String.intercalate ("/") p

/-- Python `Path.parent` on the component list. -/
def py_parent (p : PyPath) : PyPath := p.dropLast

/-- Python `Path.name` / `os.path.basename` on the component list. -/
def py_name (p : PyPath) : String := p.getLastD ("")

/-- Does `pat` occur at the head of `s`? -/
def starts_with_chars : List Char → List Char → Bool
  | _, [] => true
  | [], _ :: _ => false
  | c :: cs, p :: ps => c == p && starts_with_chars cs ps

/-- Python `str.find`: index of the first occurrence of `pat`, `none` when
absent (the Python value -1). -/
def find_sub (pat : List Char) : List Char → Option Nat
  | [] => if starts_with_chars [] pat then some 0 else none
  | c :: rest =>
    if starts_with_chars (c :: rest) pat then some 0
    else (find_sub pat rest).map (· + 1)

/-- Python slicing `s[a:b]` with the Python negative-index resolution and
clamping. -/
def py_slice (s : List Char) (a b : Int) : List Char :=
  let n : Int := s.length
  let lo := if a < 0 then max (n + a) 0 else min a n
  let hi := if b < 0 then max (n + b) 0 else min b n
  (s.drop lo.toNat).take (hi - lo).toNat

/-- Python `int(s)` restricted to non-empty all-digit strings (the epoch
slices this program feeds it); anything else is a `ValueError`. -/
def py_int (s : List Char) : Except String Int :=
  if s.isEmpty then .error ("invalid literal for int()")
  else
    match s.foldl
        (fun acc c =>
          match acc with
          | none => none
          | some n => if c.isDigit then some (n * 10 + (c.toNat - 48)) else none)
        (some 0) with
    | some n => .ok (n : Int)
    | none => .error ("invalid literal for int()")

/-- Embedding of `get_epoch_from_dirname`: find the marker `_val_RPE` and parse the
three characters right before it. -/
def get_epoch_from_dirname (dirname : String) : Except String Int :=
  match find_sub ("_val_RPE".toList) dirname.toList with
  | none => .error ("Could not find epoch number in " ++ dirname)
  | some position =>
    py_int (py_slice dirname.toList ((position : Int) - 3) (position : Int))

/-- The key used in the tie-break of `get_path`:
`get_epoch_from_dirname(x.parent.parent.name)`. -/
def epoch_key (p : PyPath) : Except String Int :=
  get_epoch_from_dirname (py_name (py_parent (py_parent p)))

/-- The loop of Python `max(..., key=epoch_key)`: keep the current best
unless the key of a later element is strictly greater (so the first maximal
element wins), propagating the first key error. -/
def py_max_by_epoch_go (best : PyPath) (bestk : Int) :
    List PyPath → Except String PyPath
  | [] => .ok best
  | q :: qs =>
    match epoch_key q with
    | .error e => .error e
    | .ok k =>
      if bestk < k then py_max_by_epoch_go q k qs
      else py_max_by_epoch_go best bestk qs

/-- Python `max(paths, key=lambda x: get_epoch_from_dirname(x.parent.parent.name))`. -/
def py_max_by_epoch : List PyPath → Except String PyPath
  | [] => .error ("max() arg is an empty sequence")
  | p :: rest =>
    match epoch_key p with
    | .error e => .error e
    | .ok k => py_max_by_epoch_go p k rest

/-- Embedding of `get_path` over the list of files matched by `rglob`: one match is
returned as is; several are tie-broken by the highest embedded epoch
number; none is a `RuntimeError`. -/
def get_path (paths : List PyPath) : Except String String :=
  if paths.length = 1 then .ok (as_posix (paths.headD []))
  else if 1 < paths.length then
    match py_max_by_epoch paths with
    | .error e => .error e
    | .ok p => .ok (as_posix p)
  else .error ("Could not find trajectory")

/-- The `max` loop returns an element of its input whose key is largest
(and at least the running best), first-maximal on ties. -/
theorem py_max_by_epoch_go_spec :
    ∀ (rest : List PyPath) (best : PyPath) (bestk : Int),
      epoch_key best = .ok bestk →
      (∀ q ∈ rest, ∃ k, epoch_key q = .ok k) →
      ∃ p k, py_max_by_epoch_go best bestk rest = .ok p ∧
        (p = best ∨ p ∈ rest) ∧ epoch_key p = .ok k ∧ bestk ≤ k ∧
        ∀ q ∈ rest, ∀ kq, epoch_key q = .ok kq → kq ≤ k := by
  intro rest
  induction rest with
  | nil =>
    intro best bestk hb _
    exact ⟨best, bestk, rfl, Or.inl rfl, hb, le_refl _, by simp⟩
  | cons q qs ih =>
    intro best bestk hb hall
    obtain ⟨k0, hk0⟩ := hall q (by simp)
    have hqs : ∀ x ∈ qs, ∃ k, epoch_key x = .ok k :=
      fun x hx => hall x (by simp [hx])
    by_cases hlt : bestk < k0
    · obtain ⟨p, k, hrun, hmem, hpk, hge, hmax⟩ := ih q k0 hk0 hqs
      refine ⟨p, k, ?_, ?_, hpk, le_of_lt (lt_of_lt_of_le hlt hge), ?_⟩
      · simp [py_max_by_epoch_go, hk0, hlt, hrun]
      · rcases hmem with h | h
        · exact Or.inr (by simp [h])
        · exact Or.inr (by simp [h])
      · intro x hx kx hkx
        rcases List.mem_cons.mp hx with h | h
        · subst h
          rw [hkx] at hk0
          simp only [Except.ok.injEq] at hk0
          omega
        · exact hmax x h kx hkx
    · obtain ⟨p, k, hrun, hmem, hpk, hge, hmax⟩ := ih best bestk hb hqs
      refine ⟨p, k, ?_, ?_, hpk, hge, ?_⟩
      · simp [py_max_by_epoch_go, hk0, hlt, hrun]
      · rcases hmem with h | h
        · exact Or.inl h
        · exact Or.inr (by simp [h])
      · intro x hx kx hkx
        rcases List.mem_cons.mp hx with h | h
        · subst h
          rw [hkx] at hk0
          simp only [Except.ok.injEq] at hk0
          omega
        · exact hmax x h kx hkx

/-- C7: `get_path` returns the single match when exactly one file
matches; with several matches (all of whose grandparent directory
names carry a parseable epoch) it returns a match whose embedded epoch
number is maximal; with zero matches it fails with an error. -/
theorem get_path_spec (paths : List PyPath) :
    (∀ p, paths = [p] → get_path paths = .ok (as_posix p)) ∧
      (paths = [] → ∃ e, get_path paths = .error e) ∧
      (1 < paths.length →
        (∀ q ∈ paths, ∃ k, epoch_key q = .ok k) →
        ∃ p k, p ∈ paths ∧ epoch_key p = .ok k ∧
          get_path paths = .ok (as_posix p) ∧
          ∀ q ∈ paths, ∀ kq, epoch_key q = .ok kq → kq ≤ k) := by
  refine ⟨?_, ?_, ?_⟩
  · intro p hp
    subst hp
    rfl
  · intro hp
    subst hp
    exact ⟨"Could not find trajectory", rfl⟩
  · intro hlen hall
    match paths, hlen with
    | p0 :: p1 :: rest, _ =>
      obtain ⟨k0, hk0⟩ := hall p0 (by simp)
      have hrest : ∀ q ∈ p1 :: rest, ∃ k, epoch_key q = .ok k :=
        fun q hq => hall q (by simp [hq])
      obtain ⟨p, k, hrun, hmem, hpk, hge0, hmax⟩ :=
        py_max_by_epoch_go_spec (p1 :: rest) p0 k0 hk0 hrest
      refine ⟨p, k, ?_, hpk, ?_, ?_⟩
      · rcases hmem with h | h
        · simp [h]
        · simp [h]
      · have hne : ¬((p0 :: p1 :: rest).length = 1) := by simp
        have hgt : 1 < (p0 :: p1 :: rest).length := by simp
        simp only [get_path, if_neg hne, if_pos hgt, py_max_by_epoch, hk0, hrun]
      · intro q hq kq hkq
        rcases List.mem_cons.mp hq with h | h
        · subst h
          rw [hkq] at hk0
          simp only [Except.ok.injEq] at hk0
          omega
        · exact hmax q h kq hkq

/-- Witness for C7: three matches whose grandparent directories embed
epochs 5, 7 and 6; `get_path` selects the epoch-7 match. -/
theorem get_path_spec_witness :
    ∃ p k, p ∈ [["m_005_val_RPE", "val", "t.csv"],
                ["m_007_val_RPE", "val", "t.csv"],
                ["m_006_val_RPE", "val", "t.csv"]] ∧
      epoch_key p = .ok k ∧
      get_path [["m_005_val_RPE", "val", "t.csv"],
                ["m_007_val_RPE", "val", "t.csv"],
                ["m_006_val_RPE", "val", "t.csv"]] = .ok (as_posix p) ∧
      ∀ q ∈ [["m_005_val_RPE", "val", "t.csv"],
             ["m_007_val_RPE", "val", "t.csv"],
             ["m_006_val_RPE", "val", "t.csv"]],
        ∀ kq, epoch_key q = .ok kq → kq ≤ k :=
  (get_path_spec [["m_005_val_RPE", "val", "t.csv"],
                  ["m_007_val_RPE", "val", "t.csv"],
                  ["m_006_val_RPE", "val", "t.csv"]]).2.2 (by decide)
    (by
      intro q hq
      rcases List.mem_cons.mp hq with h | hq2
      · exact ⟨5, by subst h; rfl⟩
      rcases List.mem_cons.mp hq2 with h | hq3
      · exact ⟨7, by subst h; rfl⟩
      rcases List.mem_cons.mp hq3 with h | hq4
      · exact ⟨6, by subst h; rfl⟩
      · simp at hq4)

/-! The loader `get_predicted_df`.

Input is the dict `{stride_key: [paths]}` (an association list with
the insertion order of the dict) plus the external CSV loader as a
parameter.  For the `loops` stride the loaded table is filtered to
`diff > 49` (the `reset_index()` that follows only adds a column and
is not modelled); all tables are concatenated; the group is classified
from the parent directory of the first path under stride key 1.
`pd.concat` of an empty list raises, and so does the
access of the first path under stride key 1 when the key or the first path is missing. -/

/-- The concatenation `pd.concat(df_list)` of `get_predicted_df`:
every loaded table in dict order, the `loops` tables filtered to
`diff > 49`. -/
def pred_df_rows (readCsv : PyPath → List Row)
    (multistride_paths : List (String × List PyPath)) : List Row :=
  multistride_paths.flatMap (fun sp =>
    sp.2.flatMap (fun path =>
      if sp.1 = "loops" then (readCsv path).filter (fun r => 49 < r.diff)
      else readCsv path))

/-- Embedding of `get_predicted_df`: the concatenated edge table plus the group id
derived from the parent directory (val ↦ 0, test ↦ 1,
anything else is a `RuntimeError`). -/
def get_predicted_df (readCsv : PyPath → List Row)
    (multistride_paths : List (String × List PyPath)) :
    Except String (List Row × Nat) :=
  if (multistride_paths.flatMap (fun sp => sp.2)).isEmpty then
    .error ("No objects to concatenate")
  else
    match multistride_paths.lookup ("1") with
    | none => .error ("KeyError: 1")
    | some paths1 =>
      match paths1 with
      | [] => .error ("IndexError: list index out of range")
      | p :: _ =>
        let parent_dir := py_name (py_parent p)
        if parent_dir = "val" then .ok (pred_df_rows readCsv multistride_paths, 0)
        else if parent_dir = "test" then
          .ok (pred_df_rows readCsv multistride_paths, 1)
        else
          .error ("Unexpected parent dir of prediction " ++ as_posix p ++
            ". Parent dir must \x22val\x22 or \x22test\x22")

/-- A successful association-list lookup pinpoints an entry. -/
theorem lookup_eq_some_mem {β : Type} {l : List (String × β)} {k : String}
    {v : β} (h : l.lookup k = some v) : (k, v) ∈ l := by
  induction l with
  | nil => simp [List.lookup] at h
  | cons e es ih =>
    obtain ⟨a, b⟩ := e
    simp only [List.lookup] at h
    by_cases hk : (k == a) = true
    · rw [hk] at h
      injection h with h2
      have ha : k = a := by simpa using hk
      subst ha
      subst h2
      simp
    · rw [Bool.not_eq_true] at hk
      rw [hk] at h
      exact List.mem_cons_of_mem _ (ih h)

/-- C8: group classification is total only on the two recognized parent
directory labels.  Given stride key 1 with a first path `p` (so
the classified path exists), label val yields group 0, test
yields group 1, and any other label is an error — never a default
group. -/
theorem get_predicted_df_group (readCsv : PyPath → List Row)
    (msp : List (String × List PyPath)) (p : PyPath) (rest : List PyPath)
    (h1 : msp.lookup ("1") = some (p :: rest)) :
    (py_name (py_parent p) = "val" →
        get_predicted_df readCsv msp = .ok (pred_df_rows readCsv msp, 0)) ∧
      (py_name (py_parent p) = "test" →
        get_predicted_df readCsv msp = .ok (pred_df_rows readCsv msp, 1)) ∧
      (py_name (py_parent p) ≠ "val" → py_name (py_parent p) ≠ "test" →
        ∃ e, get_predicted_df readCsv msp = .error e) := by
  have hmem : ("1", p :: rest) ∈ msp := lookup_eq_some_mem h1
  have hne : (msp.flatMap (fun sp => sp.2)).isEmpty = false := by
    have hmem2 : p ∈ msp.flatMap (fun sp => sp.2) :=
      List.mem_flatMap.mpr ⟨("1", p :: rest), hmem, by simp⟩
    cases hflat : msp.flatMap (fun sp => sp.2) with
    | nil =>
      rw [hflat] at hmem2
      simp at hmem2
    | cons a l => rfl
  refine ⟨?_, ?_, ?_⟩
  · intro hval
    simp [get_predicted_df, hne, h1, hval]
  · intro htest
    by_cases hval : py_name (py_parent p) = "val"
    · rw [hval] at htest
      simp at htest
    · simp [get_predicted_df, hne, h1, hval, htest]
  · intro hval htest
    refine ⟨"Unexpected parent dir of prediction " ++ as_posix p ++
      ". Parent dir must \x22val\x22 or \x22test\x22", ?_⟩
    simp [get_predicted_df, hne, h1, hval, htest]

/-- Witness for C8: three one-entry dicts whose stride-1 path sits under
`val`, `test`, and `other`; the group ids are 0, 1 and an error. -/
theorem get_predicted_df_group_witness :
    (get_predicted_df (fun _ => []) [("1", [["r", "val", "t.csv"]])]
        = .ok (pred_df_rows (fun _ => []) [("1", [["r", "val", "t.csv"]])], 0)) ∧
      (get_predicted_df (fun _ => []) [("1", [["r", "test", "t.csv"]])]
        = .ok (pred_df_rows (fun _ => []) [("1", [["r", "test", "t.csv"]])], 1)) ∧
      (∃ e, get_predicted_df (fun _ => []) [("1", [["r", "other", "t.csv"]])]
        = .error e) :=
  ⟨(get_predicted_df_group (fun _ => []) [("1", [["r", "val", "t.csv"]])]
      ["r", "val", "t.csv"] [] rfl).1 rfl,
   (get_predicted_df_group (fun _ => []) [("1", [["r", "test", "t.csv"]])]
      ["r", "test", "t.csv"] [] rfl).2.1 rfl,
   (get_predicted_df_group (fun _ => []) [("1", [["r", "other", "t.csv"]])]
      ["r", "other", "t.csv"] [] rfl).2.2 (by decide) (by decide)⟩

/-- C9: a row appears in the assembled table exactly when it comes from
some loaded file of some stride entry and, if that entry is the
special `loops` key, has `diff > 49`; rows under every other stride
key are kept regardless of `diff`, and `loops` rows with
`diff ≤ 49` are dropped. -/
theorem pred_df_rows_mem (readCsv : PyPath → List Row)
    (msp : List (String × List PyPath)) (r : Row) :
    r ∈ pred_df_rows readCsv msp ↔
      ∃ sp ∈ msp, ∃ path ∈ sp.2,
        r ∈ readCsv path ∧ (sp.1 = "loops" → 49 < r.diff) := by
  constructor
  · intro hr
    obtain ⟨sp, hsp, hmem⟩ := List.mem_flatMap.mp hr
    obtain ⟨path, hpath, hin⟩ := List.mem_flatMap.mp hmem
    by_cases hl : sp.1 = "loops"
    · rw [if_pos hl] at hin
      obtain ⟨hrc, hdiff⟩ := List.mem_filter.mp hin
      exact ⟨sp, hsp, path, hpath, hrc, fun _ => by simpa using hdiff⟩
    · rw [if_neg hl] at hin
      exact ⟨sp, hsp, path, hpath, hin, fun h => absurd h hl⟩
  · intro ⟨sp, hsp, path, hpath, hrc, hloop⟩
    refine List.mem_flatMap.mpr ⟨sp, hsp, ?_⟩
    refine List.mem_flatMap.mpr ⟨path, hpath, ?_⟩
    by_cases hl : sp.1 = "loops"
    · rw [if_pos hl]
      exact List.mem_filter.mpr ⟨hrc, by simpa using hloop hl⟩
    · rw [if_neg hl]
      exact hrc

end Odometry
